import Mathlib

/-!
Verification of the firesync propagation subsystem.

Go strings are modelled as `List Char`; Go byte slices as `List Nat`
(each element < 256); `time.Time` as `Int` (nanoseconds since epoch);
`strings.Index` as `strIndex` returning `Option Nat` instead of `-1`.

Definitions are translated from the Go sources under `internal/model`,
`internal/handler` and `internal/service`.  The transactional propagator
wired by `cmd/firesync/main.go` (`service.NewPropagator(topic, firestore,
tombstoneTTL, meter)` with `processCreateEvent` / `processUpdateEvent` /
`processDeleteEvent`) is absent from the source tree - only its tests,
its datastore and pubsub adapters and its caller are present - so that
component is modelled from the specification (§4.3); those definitions
carry a `Modelled from the spec:` doc comment.
-/

/-- Go `strings.Index(s, sub)`: index of the first occurrence of `sub` in
`s`, `none` instead of Go's `-1`.  `strings.Index(s, "")` is `0`, matched
by `[] <+: s` always holding. -/
def strIndex (sub : List Char) : List Char → Option Nat
  | [] => if sub.isPrefixOf [] then some 0 else none
  | c :: t =>
    if sub.isPrefixOf (c :: t) then some 0
    else (strIndex sub t).map (· + 1)

/-- `"projects/"` (model/docname `projectsPrefix`, service `projectsPrefix`). -/
def projSeg : List Char := "projects/".toList

/-- `"/databases/"` (`databasesInfix`). -/
def dbSeg : List Char := "/databases/".toList

/-- `"/documents/"` (`documentsInfix`). -/
def docSeg : List Char := "/documents/".toList

/-- `model.TombstoneCollection + "/"` = `"_firesync/"`. -/
def tombSeg : List Char := "_firesync/".toList

/-- The reserved field key `"_firesync"`. -/
def firesyncKey : List Char := "_firesync".toList

/-- `"_firesync."`, the sub-field form checked by `hasAnyFiresyncFields`. -/
def firesyncDot : List Char := "_firesync.".toList

/-- `model.DocumentName` (internal/model/docname.go). -/
structure DocumentName where
  projectID : List Char
  databaseID : List Char
  path : List Char
deriving DecidableEq, Repr

/-- `model.NewDocumentFromPath` (internal/model/docname.go): parses
`projects/{p}/databases/{d}/documents/{path}`.  Go slicing `path[a:b]`
is `(path.take b).drop a`. -/
def NewDocumentFromPath (path : List Char) : Option DocumentName :=
  match strIndex projSeg path with
  | some 0 =>
    match strIndex dbSeg (path.drop projSeg.length) with
    | none => none
    | some i =>
      let dbIdx := i + projSeg.length
      match strIndex docSeg (path.drop (dbIdx + dbSeg.length)) with
      | none => none
      | some j =>
        let docIdx := j + dbIdx + dbSeg.length
        let projectID := (path.take dbIdx).drop projSeg.length
        let databaseID := (path.take docIdx).drop (dbIdx + dbSeg.length)
        let docPath := path.drop (docIdx + docSeg.length)
        if projectID = [] ∨ databaseID = [] ∨ docPath = [] then none
        else some ⟨projectID, databaseID, docPath⟩
  | _ => none

/-- `model.DocumentName.String()`:
`fmt.Sprintf("projects/%s/databases/%s/documents/%s", ...)`. -/
def docNameString (d : DocumentName) : List Char :=
  projSeg ++ d.projectID ++ dbSeg ++ d.databaseID ++ docSeg ++ d.path

/-- UTF-8 encoding of one character, as Go's `[]byte(string)` produces. -/
def utf8Char (c : Char) : List Nat :=
  let n := c.toNat
  if n < 128 then [n]
  else if n < 2048 then [192 + n / 64, 128 + n % 64]
  else if n < 65536 then [224 + n / 4096, 128 + n / 64 % 64, 128 + n % 64]
  else [240 + n / 262144, 128 + n / 4096 % 64, 128 + n / 64 % 64, 128 + n % 64]

/-- Go `[]byte(s)`: UTF-8 bytes of a string. -/
def utf8Bytes (s : List Char) : List Nat := s.flatMap utf8Char

/-- 2^32, the word modulus of SHA-256. -/
def m32 : Nat := 4294967296

/-- Addition modulo 2^32. -/
def add32 (a b : Nat) : Nat := (a + b) % m32

/-- Right rotation of a 32-bit word. -/
def rotr32 (n x : Nat) : Nat := ((x >>> n) ||| (x <<< (32 - n))) % m32

/-- SHA-256 round constants. -/
def sha256K : List Nat := [
  1116352408, 1899447441, 3049323471, 3921009573, 961987163, 1508970993, 2453635748, 2870763221,
  3624381080, 310598401, 607225278, 1426881987, 1925078388, 2162078206, 2614888103, 3248222580,
  3835390401, 4022224774, 264347078, 604807628, 770255983, 1249150122, 1555081692, 1996064986,
  2554220882, 2821834349, 2952996808, 3210313671, 3336571891, 3584528711, 113926993, 338241895,
  666307205, 773529912, 1294757372, 1396182291, 1695183700, 1986661051, 2177026350, 2456956037,
  2730485921, 2820302411, 3259730800, 3345764771, 3516065817, 3600352804, 4094571909, 275423344,
  430227734, 506948616, 659060556, 883997877, 958139571, 1322822218, 1537002063, 1747873779,
  1955562222, 2024104815, 2227730452, 2361852424, 2428436474, 2756734187, 3204031479, 3329325298]

/-- Running hash state of SHA-256 (eight 32-bit words). -/
structure Sha256State where
  a : Nat
  b : Nat
  c : Nat
  d : Nat
  e : Nat
  f : Nat
  g : Nat
  h : Nat
deriving DecidableEq, Repr

/-- SHA-256 initial hash value. -/
def sha256Init : Sha256State :=
  ⟨1779033703, 3144134277, 1013904242, 2773480762, 1359893119, 2600822924, 528734635, 1541459225⟩

/-- The sixteen message words of one 64-byte block (big endian). -/
def sha256Words (block : List Nat) : List Nat :=
  (List.range 16).map fun i =>
    block.getD (4 * i) 0 * 16777216 + block.getD (4 * i + 1) 0 * 65536 +
      block.getD (4 * i + 2) 0 * 256 + block.getD (4 * i + 3) 0

/-- Extends the 16 message words to the full 64-entry schedule. -/
def sha256Schedule (w16 : List Nat) : List Nat :=
  (List.range 48).foldl
    (fun w _ =>
      let n := w.length
      let w15 := w.getD (n - 15) 0
      let w2 := w.getD (n - 2) 0
      let s0 := (rotr32 7 w15) ^^^ (rotr32 18 w15) ^^^ (w15 >>> 3)
      let s1 := (rotr32 17 w2) ^^^ (rotr32 19 w2) ^^^ (w2 >>> 10)
      w ++ [add32 (add32 (w.getD (n - 16) 0) s0) (add32 (w.getD (n - 7) 0) s1)])
    w16

/-- One round of the SHA-256 compression function. -/
def sha256Round (st : Sha256State) (kw : Nat × Nat) : Sha256State :=
  let s1 := (rotr32 6 st.e) ^^^ (rotr32 11 st.e) ^^^ (rotr32 25 st.e)
  let ch := (st.e &&& st.f) ^^^ ((m32 - 1 - st.e) &&& st.g)
  let t1 := add32 (add32 st.h s1) (add32 (add32 ch kw.1) kw.2)
  let s0 := (rotr32 2 st.a) ^^^ (rotr32 13 st.a) ^^^ (rotr32 22 st.a)
  let maj := (st.a &&& st.b) ^^^ (st.a &&& st.c) ^^^ (st.b &&& st.c)
  let t2 := add32 s0 maj
  ⟨add32 t1 t2, st.a, st.b, st.c, add32 st.d t1, st.e, st.f, st.g⟩

/-- Compression of one 64-byte block into the running state. -/
def sha256Block (st : Sha256State) (block : List Nat) : Sha256State :=
  let w := sha256Schedule (sha256Words block)
  let r := (sha256K.zip w).foldl (fun s kw => sha256Round s (kw.2, kw.1)) st
  ⟨add32 st.a r.a, add32 st.b r.b, add32 st.c r.c, add32 st.d r.d,
   add32 st.e r.e, add32 st.f r.f, add32 st.g r.g, add32 st.h r.h⟩

/-- SHA-256 padding: `0x80`, zeros to 56 mod 64, then the 64-bit big-endian
bit length. -/
def sha256Pad (msg : List Nat) : List Nat :=
  let zeros := (120 - (msg.length + 1) % 64) % 64
  let bits := 8 * msg.length
  msg ++ [128] ++ List.replicate zeros 0 ++
    (List.range 8).map (fun i => bits >>> (8 * (7 - i)) % 256)

/-- Big-endian bytes of one 32-bit word. -/
def word32Bytes (x : Nat) : List Nat := [x >>> 24 % 256, x >>> 16 % 256, x >>> 8 % 256, x % 256]

/-- Go `sha256.Sum256`: the 32-byte SHA-256 digest of a byte string. -/
def sha256Sum (msg : List Nat) : List Nat :=
  let padded := sha256Pad msg
  let st := (List.range (padded.length / 64)).foldl
    (fun s i => sha256Block s ((padded.drop (64 * i)).take 64)) sha256Init
  word32Bytes st.a ++ word32Bytes st.b ++ word32Bytes st.c ++ word32Bytes st.d ++
    word32Bytes st.e ++ word32Bytes st.f ++ word32Bytes st.g ++ word32Bytes st.h

/-- The URL-safe base64 alphabet used by Go's `base64.RawURLEncoding`. -/
def b64UrlAlphabet : List Char :=
  "ABCDEFGHIJKLMNOPQRSTUVWXYZabcdefghijklmnopqrstuvwxyz0123456789-_".toList

/-- One alphabet character for a 6-bit group. -/
def b64Char (n : Nat) : Char := b64UrlAlphabet.getD n 'A'

/-- Go `base64.RawURLEncoding.EncodeToString`: URL-safe base64 without
padding. -/
def base64UrlNoPad : List Nat → List Char
  | [] => []
  | [a] => [b64Char (a >>> 2), b64Char ((a % 4) <<< 4)]
  | [a, b] =>
    [b64Char (a >>> 2), b64Char (((a % 4) <<< 4) ||| (b >>> 4)), b64Char ((b % 16) <<< 2)]
  | a :: b :: c :: rest =>
    b64Char (a >>> 2) :: b64Char (((a % 4) <<< 4) ||| (b >>> 4)) ::
      b64Char (((b % 16) <<< 2) ||| (c >>> 6)) :: b64Char (c % 64) :: base64UrlNoPad rest

/-- `model.TombstoneID` (internal/model/tombstone.go):
`base64.RawURLEncoding.EncodeToString(sha256.Sum256([]byte(path))[:])`. -/
def TombstoneID (path : List Char) : List Char := base64UrlNoPad (sha256Sum (utf8Bytes path))

/-- `model.Tombstone.ID()` (internal/model/tombstone.go): finds the first
`"/documents/"` in the document reference path and hashes the portion
after it; the Go code panics when the infix is absent, modelled as
`none`. -/
def tombstoneRefID (refPath : List Char) : Option (List Char) :=
  match strIndex docSeg refPath with
  | none => none
  | some i => some (TombstoneID (refPath.drop (i + docSeg.length)))

/-- A Firestore field value, as far as the classifiers inspect it:
`shouldSkip` looks inside a map value for a boolean, everything else only
checks key presence. -/
inductive FVal where
  | nullV : FVal
  | boolV : Bool → FVal
  | mapV : List (List Char × FVal) → FVal

/-- Association-list lookup keyed by strings (Go map indexing). -/
def alookup {α : Type} : List (List Char × α) → List Char → Option α
  | [], _ => none
  | (k, v) :: t, key => if k = key then some v else alookup t key

/-- `firestoredata.Document`: the fields the classifiers read. -/
structure FDoc where
  name : List Char
  updateTime : Int
  fields : List (List Char × FVal)

/-- `firestoredata.DocumentEventData`: before image, after image and
optional update mask (`none` models a nil proto message). -/
structure DocumentEventData where
  value : Option FDoc
  oldValue : Option FDoc
  updateMask : Option (List (List Char))

/-- `model.EventType` (internal/model/event.go). -/
inductive EventType where
  | unknown : EventType
  | created : EventType
  | updated : EventType
  | deleted : EventType
  | replicated : EventType
  | tombstone : EventType
deriving DecidableEq, Repr

/-- `model.Event` (internal/model/event.go). -/
structure MEvent where
  type : EventType
  name : DocumentName
  timestamp : Int
  data : DocumentEventData

/-- `hasAnyFiresyncFields` (internal/model/event.go and the identical copy
in internal/service/propagator.go): true when a mask entry is exactly
`_firesync` or starts with `_firesync.`. -/
def hasAnyFiresyncFields : List (List Char) → Bool
  | [] => false
  | f :: rest =>
    if f = firesyncKey ∨ firesyncDot.isPrefixOf f then true else hasAnyFiresyncFields rest

/-- `model.ParseEvent` (internal/model/event.go): classifies a raw change
event; `eventTime` is the wall-clock fallback chosen by the HTTP
handler. -/
def ParseEvent (event : DocumentEventData) (eventTime : Int) : Except String MEvent :=
  match event.value with
  | none =>
    match event.oldValue with
    | none => .error "no value nor old value"
    | some doc =>
      match NewDocumentFromPath doc.name with
      | none => .error "invalid old document name format"
      | some docName =>
        if tombSeg.isPrefixOf docName.path then
          .ok ⟨.tombstone, docName, eventTime, event⟩
        else
          .ok ⟨.deleted, docName, eventTime, event⟩
  | some doc =>
    match NewDocumentFromPath doc.name with
    | none => .error "invalid document name format"
    | some docName =>
      if tombSeg.isPrefixOf docName.path then
        .ok ⟨.tombstone, docName, doc.updateTime, event⟩
      else
        match event.oldValue with
        | none =>
          if (alookup doc.fields firesyncKey).isSome then
            .ok ⟨.replicated, docName, doc.updateTime, event⟩
          else
            .ok ⟨.created, docName, doc.updateTime, event⟩
        | some _ =>
          match event.updateMask with
          | none => .error "no update mask in update event"
          | some mask =>
            if hasAnyFiresyncFields mask then
              .ok ⟨.replicated, docName, doc.updateTime, event⟩
            else
              .ok ⟨.updated, docName, doc.updateTime, event⟩

/-- `service.documentName` (internal/service/propagator.go). -/
structure SvcDocumentName where
  projectID : List Char
  databaseID : List Char
  documentPath : List Char
  isOld : Bool
deriving DecidableEq, Repr

/-- The zero `documentName` value Go returns on validation failure. -/
def svcDocNameEmpty : SvcDocumentName := ⟨[], [], [], false⟩

/-- `minValidLength` in `service.parseDocumentName`. -/
def minValidLength : Nat := projSeg.length + 1 + dbSeg.length + 1 + docSeg.length + 1

/-- `service.parseDocumentName` (internal/service/propagator.go): picks
the new document's name (falling back to the old one), then validates
`projects/{p}/databases/{d}/documents/{path}` rejecting empty segments
and slashes inside the project or database id. -/
def parseDocumentName (ev : DocumentEventData) : SvcDocumentName :=
  let name0 : List Char := match ev.value with | some v => v.name | none => []
  let nameIsOld : List Char × Bool :=
    if name0 = [] then
      match ev.oldValue with
      | some o => (o.name, true)
      | none => ([], false)
    else (name0, false)
  let name := nameIsOld.1
  if name.length < minValidLength then svcDocNameEmpty
  else if ¬ projSeg.isPrefixOf name then svcDocNameEmpty
  else
    match strIndex dbSeg (name.drop projSeg.length) with
    | none => svcDocNameEmpty
    | some i =>
      let dbStart := i + projSeg.length
      let projectID := (name.take dbStart).drop projSeg.length
      if projectID = [] ∨ '/' ∈ projectID then svcDocNameEmpty
      else
        match strIndex docSeg (name.drop (dbStart + dbSeg.length)) with
        | none => svcDocNameEmpty
        | some j =>
          let docStart := j + dbStart + dbSeg.length
          let databaseID := (name.take docStart).drop (dbStart + dbSeg.length)
          if databaseID = [] ∨ '/' ∈ databaseID then svcDocNameEmpty
          else
            let documentPath := name.drop (docStart + docSeg.length)
            if documentPath = [] then svcDocNameEmpty
            else ⟨projectID, databaseID, documentPath, nameIsOld.2⟩

/-- `service.eventType` (internal/service/propagator.go, legacy stub). -/
inductive SvcEventType where
  | createT : SvcEventType
  | updateT : SvcEventType
  | deleteT : SvcEventType
  | replicatedT : SvcEventType
  | tombstoneT : SvcEventType
deriving DecidableEq, Repr

/-- `service.newEventType` (internal/service/propagator.go): classifier of
the legacy in-tree propagator stub. -/
def newEventType (docName : SvcDocumentName) (event : DocumentEventData) : SvcEventType :=
  match event.oldValue with
  | none =>
    match event.value with
    | none => .createT
    | some doc =>
      if tombSeg.isPrefixOf docName.documentPath then .tombstoneT
      else if (alookup doc.fields firesyncKey).isSome then .replicatedT
      else .createT
  | some _ =>
    match event.value with
    | none => .deleteT
    | some _ =>
      if hasAnyFiresyncFields ((event.updateMask).getD []) then .replicatedT
      else .updateT

/-- `service.PropagationResult`.  The legacy file in the tree declares
`Success`, `Skipped`, `Error`; the handler tests and the spec data model
additionally use `PropagationResultUnknown`, so the authoritative enum has
four values. -/
inductive PropagationResult where
  | success : PropagationResult
  | skipped : PropagationResult
  | error : PropagationResult
  | unknown : PropagationResult
deriving DecidableEq, Repr

/-- The legacy stub `propagator.Propagate` (internal/service/propagator.go
lines 85-118): validates the name, classifies, returns `Skipped` for
`Replicated`/`Tombstone` and `Success` otherwise, performing no datastore
or publish I/O at all.  The Bool is `err != nil`. -/
def stubPropagate (event : DocumentEventData) : PropagationResult × Bool :=
  let docName := parseDocumentName event
  if docName.projectID = [] ∨ docName.databaseID = [] ∨ docName.documentPath = [] then
    (.error, true)
  else
    let et := newEventType docName event
    if et = .replicatedT ∨ et = .tombstoneT then (.skipped, false)
    else (.success, false)

/-- `eventinfo.EventType` (internal/eventinfo). -/
inductive InfoEventType where
  | createdI : InfoEventType
  | updatedI : InfoEventType
  | deletedI : InfoEventType
deriving DecidableEq, Repr

/-- `eventinfo.GetEventType`: no new value means deleted, no old value
means created, both mean updated. -/
def GetEventType (event : DocumentEventData) : InfoEventType :=
  match event.value with
  | none => .deletedI
  | some _ =>
    match event.oldValue with
    | none => .createdI
    | some _ => .updatedI

/-- Go `v.GetMapValue().GetFields()`: the entries of a map value, empty
for non-map values (proto getters on nil return zero values). -/
def FVal.mapEntries : FVal → List (List Char × FVal)
  | .mapV entries => entries
  | _ => []

/-- Go `v.GetBooleanValue()`: the boolean of a value, false otherwise. -/
def FVal.booleanValue : FVal → Bool
  | .boolV b => b
  | _ => false

/-- `shouldSkip` (internal/service/handlers/propagator/propagator.go,
legacy handler): decides whether to skip a change as a replicated echo.
For updates it uses `strings.HasPrefix(field, "_firesync")` - plain
prefix matching - unlike `hasAnyFiresyncFields`. -/
def shouldSkip (event : DocumentEventData) : InfoEventType × Bool :=
  match GetEventType event with
  | .createdI =>
    match event.value with
    | some doc =>
      if (alookup doc.fields firesyncKey).isSome then (.createdI, true) else (.createdI, false)
    | none => (.createdI, false)
  | .updatedI =>
    if ((event.updateMask).getD []).any (fun f => firesyncKey.isPrefixOf f) then
      (.updatedI, true)
    else (.updatedI, false)
  | .deletedI =>
    match event.value with
    | some doc =>
      match alookup doc.fields firesyncKey with
      | some fs =>
        match alookup fs.mapEntries "deleted".toList with
        | some d => if d.booleanValue then (.deletedI, true) else (.deletedI, false)
        | none => (.deletedI, false)
      | none => (.deletedI, false)
    | none => (.deletedI, false)

/-- Outcome classes of `handler.parseFirestoreDocumentEventData`:
`unsupportedMediaType` versus any other (read / unmarshal) error. -/
inductive BodyErr where
  | unsupported : BodyErr
  | decodeFail : BodyErr
deriving DecidableEq, Repr

/-- An HTTP request to the propagate handler, with the vendor
deserializers abstracted: `protoDecode` / `jsonDecode` are the outcomes of
`proto.Unmarshal` / `protojson.Unmarshal` on the body bytes (`none` =
error), `readErr` models an `io.ReadAll` failure, `now` is the wall clock
at intake, and `ceTime` is the `ce-time` header (`none` = absent or
empty, `some none` = present but not RFC3339Nano, `some (some t)` =
parses to `t`). -/
structure PropagateRequest where
  contentType : List Char
  ceDataContentType : List Char
  readErr : Bool
  protoDecode : Option DocumentEventData
  jsonDecode : Option DocumentEventData
  now : Int
  ceTime : Option (Option Int)

/-- `handler.parseFirestoreDocumentEventData` (internal/handler/propagate.go
lines 125-145) together with the content-type selection of the handler
(content-type header, else ce-datacontenttype). -/
def parseFirestoreDocumentEventData (req : PropagateRequest) : Except BodyErr DocumentEventData :=
  if req.readErr then .error .decodeFail
  else
    let ct := if req.contentType = [] then req.ceDataContentType else req.contentType
    if ct = "application/protobuf".toList then
      match req.protoDecode with
      | some ev => .ok ev
      | none => .error .decodeFail
    else if ct = "application/json".toList then
      match req.jsonDecode with
      | some ev => .ok ev
      | none => .error .decodeFail
    else .error .unsupported

/-- The event-time computation of `handler.Propagate` (lines 81-87):
wall clock, overridden by a parsed `ce-time` strictly earlier than it. -/
def intakeEventTime (now : Int) (ceTime : Option (Option Int)) : Int :=
  match ceTime with
  | some (some t) => if t < now then t else now
  | _ => now

/-- `handler.Propagate` (internal/handler/propagate.go): full
request-to-status mapping.  `propagateFn` abstracts the injected
`Propagator` service (result, `err != nil`); the returned number is the
HTTP status code. -/
def propagateHandler (force200 : Bool) (propagateFn : MEvent → PropagationResult × Bool)
    (req : PropagateRequest) : Nat :=
  match parseFirestoreDocumentEventData req with
  | .error .unsupported => 415
  | .error .decodeFail => 400
  | .ok rawEvent =>
    let eventTime := intakeEventTime req.now req.ceTime
    match ParseEvent rawEvent eventTime with
    | .error _ => 400
    | .ok modelEvent =>
      let r := propagateFn modelEvent
      if r.2 = true ∨ r.1 = .error then 500
      else
        match r.1 with
        | .success => if force200 then 200 else 202
        | .skipped => if force200 then 200 else 204
        | _ => 500

/-- `model.Metadata` (internal/model/metadata.go). -/
structure Metadata where
  ts : Int
  src : List Char
  trace : List Char
deriving DecidableEq, Repr

/-- A live document as stored in the datastore: its `LastUpdateTime`
precondition anchor and the `_firesync` metadata field. -/
structure StoredDoc where
  updateTime : Int
  meta : Option Metadata
deriving DecidableEq, Repr

/-- `model.Tombstone` (internal/model/tombstone.go) as stored, plus the
record's own `LastUpdateTime` anchor used by the update precondition. -/
structure TombstoneRec where
  doc : List Char
  ts : Int
  src : List Char
  trace : List Char
  exp : Int
  lastUpdateTime : Int
deriving DecidableEq, Repr

/-- Association-list insert-or-replace (a datastore write). -/
def aset {α : Type} : List (List Char × α) → List Char → α → List (List Char × α)
  | [], key, v => [(key, v)]
  | (k, w) :: t, key, v => if k = key then (key, v) :: t else (k, w) :: aset t key v

/-- Association-list removal (a datastore delete). -/
def aremove {α : Type} : List (List Char × α) → List Char → List (List Char × α)
  | [], _ => []
  | (k, w) :: t, key => if k = key then t else (k, w) :: aremove t key

/-- The datastore contents for one database: live documents keyed by
document path and tombstones keyed by their `_firesync/{id}` path. -/
structure Store where
  docs : List (List Char × StoredDoc)
  tombs : List (List Char × TombstoneRec)
deriving DecidableEq, Repr

/-- `model.DocumentName.TombstoneRef` path:
`_firesync/{TombstoneID(path)}` (internal/model/docname.go). -/
def tombstonePath (docPath : List Char) : List Char :=
  tombSeg ++ TombstoneID docPath

/-- Environment of one propagation call: the service identity, the
configured tombstone TTL, and the outcome oracles for the two external
effects (datastore transaction commit, publish acknowledgement). -/
structure PropEnv where
  source : List Char
  trace : List Char
  tombstoneTTL : Int
  txAborts : Bool
  publishAckOk : Bool
deriving DecidableEq, Repr

/-- Modelled from the spec: `service.(*propagator).processCreateEvent`
is absent from the source tree (only its tests in
internal/service/pubsub.go remain); §4.3.1: read the tombstone; if a
strictly newer tombstone exists, delete the just-created document under a
`LastUpdateTime = event.timestamp` precondition and do not publish;
otherwise stamp `_firesync` metadata under the same precondition
(precondition failure is a benign skip). -/
def processCreateEvent (env : PropEnv) (st : Store) (e : MEvent) : Store × Bool :=
  let stamp : Store × Bool :=
    match alookup st.docs e.name.path with
    | some doc =>
      if doc.updateTime = e.timestamp then
        let doc2 := { doc with meta := some ⟨e.timestamp, env.source, env.trace⟩ }
        ({ st with docs := aset st.docs e.name.path doc2 }, true)
      else (st, false)
    | none => (st, false)
  match alookup st.tombs (tombstonePath e.name.path) with
  | some tomb =>
    if e.timestamp < tomb.ts then
      match alookup st.docs e.name.path with
      | some doc =>
        if doc.updateTime = e.timestamp then
          ({ st with docs := aremove st.docs e.name.path }, false)
        else (st, false)
      | none => (st, false)
    else stamp
  | none => stamp

/-- Modelled from the spec: `service.(*propagator).processUpdateEvent` is
absent from the source tree; §4.3.2 prescribes the same transaction as
the create sub-protocol: a strictly newer tombstone kills the document,
otherwise the `_firesync` stamp is applied under the event-timestamp
precondition. -/
def processUpdateEvent (env : PropEnv) (st : Store) (e : MEvent) : Store × Bool :=
  let stamp : Store × Bool :=
    match alookup st.docs e.name.path with
    | some doc =>
      if doc.updateTime = e.timestamp then
        let doc2 := { doc with meta := some ⟨e.timestamp, env.source, env.trace⟩ }
        ({ st with docs := aset st.docs e.name.path doc2 }, true)
      else (st, false)
    | none => (st, false)
  match alookup st.tombs (tombstonePath e.name.path) with
  | some tomb =>
    if e.timestamp < tomb.ts then
      match alookup st.docs e.name.path with
      | some doc =>
        if doc.updateTime = e.timestamp then
          ({ st with docs := aremove st.docs e.name.path }, false)
        else (st, false)
      | none => (st, false)
    else stamp
  | none => stamp

/-- The tombstone record written by the delete sub-protocol (§4.3.3):
`{documentRef, timestamp=event.timestamp, source, trace,
expiration=event.timestamp+tombstoneTTL}`; its `LastUpdateTime` anchor is
the event timestamp it was written with. -/
def freshTombstone (env : PropEnv) (e : MEvent) : TombstoneRec :=
  ⟨e.name.path, e.timestamp, env.source, env.trace, e.timestamp + env.tombstoneTTL, e.timestamp⟩

/-- Modelled from the spec: the tombstone half (§4.3.3 steps 3-5) of the
absent `service.(*propagator).processDeleteEvent`: a strictly newer
tombstone wins silently; an older one is refreshed under the
event-timestamp precondition; a missing one is created with
`{documentRef, timestamp=event.timestamp, source, trace,
expiration=event.timestamp+tombstoneTTL}`. -/
def deleteTombstonePhase (env : PropEnv) (st : Store) (e : MEvent) : Store × Bool :=
  let tp := tombstonePath e.name.path
  let fresh : TombstoneRec := freshTombstone env e
  match alookup st.tombs tp with
  | some tomb =>
    if e.timestamp < tomb.ts then (st, false)
    else if tomb.lastUpdateTime = e.timestamp then
      ({ st with tombs := aset st.tombs tp fresh }, true)
    else (st, false)
  | none => ({ st with tombs := aset st.tombs tp fresh }, true)

/-- Modelled from the spec: `service.(*propagator).processDeleteEvent` is
absent from the source tree; §4.3.3 steps 1-2: read the document; if it
exists, its `_firesync.timestamp` (falling back to the event timestamp)
decides - strictly newer document wins with no deletion and no publish,
otherwise the document is deleted under a `LastUpdateTime = observed
timestamp` precondition and the tombstone phase runs. -/
def processDeleteEvent (env : PropEnv) (st : Store) (e : MEvent) : Store × Bool :=
  match alookup st.docs e.name.path with
  | some doc =>
    let obs := match doc.meta with | some m => m.ts | none => e.timestamp
    if e.timestamp < obs then (st, false)
    else
      let st1 := if doc.updateTime = obs then
        { st with docs := aremove st.docs e.name.path } else st
      deleteTombstonePhase env st1 e
  | none => deleteTombstonePhase env st e

/-- The outbound wire message (§4.3.5, §6): serialized payload plus
content-type, event-type, event-time, source coordinates and the injected
trace context. -/
structure WireMessage where
  data : DocumentEventData
  eventType : EventType
  eventTime : Int
  projectID : List Char
  databaseID : List Char
  documentPath : List Char
  traceCtx : List Char

/-- Observable outcome of one `Propagate` call: the result, the final
datastore state, the number of datastore transactions run (every
datastore read or write happens inside the transaction), and the list of
published wire messages. -/
structure PropOut where
  result : PropagationResult
  store : Store
  txCount : Nat
  published : List WireMessage

/-- Modelled from the spec: `service.(*propagator).Propagate` (the
four-argument `NewPropagator` service wired by cmd/firesync/main.go) is
absent from the source tree; §4.3: `Replicated` and `Tombstone` events
are skipped with no I/O; other events run exactly one datastore
transaction and, when it commits with `shouldPublish`, one message is
published and the ack awaited. -/
def Propagate (env : PropEnv) (st : Store) (e : MEvent) : PropOut :=
  if e.type = .replicated ∨ e.type = .tombstone then ⟨.skipped, st, 0, []⟩
  else if env.txAborts then ⟨.error, st, 1, []⟩
  else
    let r : Store × Bool :=
      match e.type with
      | .created => processCreateEvent env st e
      | .updated => processUpdateEvent env st e
      | .deleted => processDeleteEvent env st e
      | _ => (st, false)
    if r.2 then
      let msg : WireMessage :=
        ⟨e.data, e.type, e.timestamp, e.name.projectID, e.name.databaseID, e.name.path, env.trace⟩
      if env.publishAckOk then ⟨.success, r.1, 1, [msg]⟩
      else ⟨.error, r.1, 1, [msg]⟩
    else ⟨.skipped, r.1, 1, []⟩

theorem strIndex_prefix {sub s : List Char} {i : Nat} (h : strIndex sub s = some i) :
    sub <+: s.drop i := by
  induction s generalizing i with
  | nil =>
    unfold strIndex at h
    split at h
    · cases h
      simpa [List.isPrefixOf_iff_prefix] using ‹sub.isPrefixOf []›
    · cases h
  | cons c t ih =>
    unfold strIndex at h
    split at h
    · cases h
      simpa [List.isPrefixOf_iff_prefix] using ‹sub.isPrefixOf (c :: t)›
    · rcases Option.map_eq_some'.mp h with ⟨j, hj, rfl⟩
      simpa using ih hj

theorem strIndex_append_notMem {a : Char} {sub p r : List Char} (h : a ∉ p) :
    strIndex (a :: sub) (p ++ (a :: sub) ++ r) = some p.length := by
  induction p with
  | nil =>
    have : (a :: sub).isPrefixOf (a :: sub ++ r) := by
      simp [List.isPrefixOf_iff_prefix]
    simp only [List.nil_append, List.cons_append]
    unfold strIndex
    simp only [List.cons_append] at this
    simp [this]
  | cons c p' ih =>
    have hca : ¬ (a :: sub).isPrefixOf (c :: (p' ++ (a :: sub) ++ r)) := by
      intro hp
      have := List.isPrefixOf_iff_prefix.mp hp
      rcases this with ⟨t, ht⟩
      have : a = c := by
        have := congrArg (fun l => l.head?) ht
        simpa using this
      exact h (by simp [this])
    have hne : a ≠ c := fun hac => h (by simp [hac])
    have hnotMem : a ∉ p' := fun hm => h (List.mem_cons_of_mem _ hm)
    simp only [List.cons_append]
    unfold strIndex
    rw [if_neg (by simpa using hca)]
    rw [show p' ++ (a :: sub) ++ r = p' ++ (a :: sub) ++ r from rfl]
    have := ih hnotMem
    simp only [List.cons_append] at this ⊢
    rw [this]
    simp

theorem prefix_drop_decomp {s sub : List Char} {a : Nat} (h : sub <+: s.drop a) :
    s.drop a = sub ++ s.drop (a + sub.length) := by
  have h1 : sub = (s.drop a).take sub.length := List.prefix_iff_eq_take.mp h
  conv_lhs => rw [← List.take_append_drop sub.length (s.drop a)]
  rw [← h1, List.drop_drop, Nat.add_comm]

theorem take_drop_middle (s : List Char) (a k : Nat) :
    s.drop a = (s.drop a).take k ++ s.drop (a + k) := by
  conv_lhs => rw [← List.take_append_drop k (s.drop a)]
  rw [List.drop_drop, Nat.add_comm]

theorem take_of_drop_prefix {s sub : List Char} {a : Nat} (h : sub <+: s.drop a) :
    (s.take (a + sub.length)).drop a = sub := by
  rw [List.drop_take]
  have h1 : sub = (s.drop a).take sub.length := List.prefix_iff_eq_take.mp h
  rw [Nat.add_sub_cancel_left]
  exact h1.symm

theorem NewDocumentFromPath_reconstruct {s : List Char} {n : DocumentName}
    (h : NewDocumentFromPath s = some n) :
    s = projSeg ++ n.projectID ++ dbSeg ++ n.databaseID ++ docSeg ++ n.path ∧
      n.projectID ≠ [] ∧ n.databaseID ≠ [] ∧ n.path ≠ [] := by
  simp only [NewDocumentFromPath] at h
  split at h
  case _ heq0 =>
    split at h
    case _ => cases h
    case _ i heqi =>
      split at h
      case _ => cases h
      case _ j heqj =>
        split at h
        case _ => cases h
        case _ hcond =>
          push_neg at hcond
          obtain ⟨hp, hd, hw⟩ := hcond
          cases h
          -- facts
          have hpre0 : projSeg <+: s := by
            have := strIndex_prefix heq0
            simpa using this
          have hpre1 : dbSeg <+: s.drop (projSeg.length + i) := by
            have t1 := strIndex_prefix heqi
            rwa [List.drop_drop] at t1
          have hpre2 : docSeg <+: s.drop (projSeg.length + i + dbSeg.length + j) := by
            have t2 := strIndex_prefix heqj
            rw [List.drop_drop] at t2
            have harith : i + projSeg.length + dbSeg.length + j =
                projSeg.length + i + dbSeg.length + j := by omega
            rwa [harith] at t2
          refine ⟨?_, hp, hd, hw⟩
          -- reconstruction
          have e0 : s = projSeg ++ s.drop projSeg.length := by
            conv_lhs => rw [← List.take_append_drop projSeg.length s]
            congr 1
            exact (List.prefix_iff_eq_take.mp hpre0).symm
          have e1 : s.drop projSeg.length =
              (s.drop projSeg.length).take i ++ s.drop (projSeg.length + i) :=
            take_drop_middle s projSeg.length i
          have e2 : s.drop (projSeg.length + i) =
              dbSeg ++ s.drop (projSeg.length + i + dbSeg.length) :=
            prefix_drop_decomp hpre1
          have e3 : s.drop (projSeg.length + i + dbSeg.length) =
              (s.drop (projSeg.length + i + dbSeg.length)).take j ++
                s.drop (projSeg.length + i + dbSeg.length + j) :=
            take_drop_middle s (projSeg.length + i + dbSeg.length) j
          have e4 : s.drop (projSeg.length + i + dbSeg.length + j) =
              docSeg ++ s.drop (projSeg.length + i + dbSeg.length + j + docSeg.length) :=
            prefix_drop_decomp hpre2
          -- field identifications
          have f1 : (s.take (i + projSeg.length)).drop projSeg.length =
              (s.drop projSeg.length).take i := by
            rw [List.drop_take, Nat.add_sub_cancel]
          have f2 : (s.take (j + (i + projSeg.length) + dbSeg.length)).drop
                ((i + projSeg.length) + dbSeg.length) =
              (s.drop (projSeg.length + i + dbSeg.length)).take j := by
            rw [List.drop_take]
            have h1 : j + (i + projSeg.length) + dbSeg.length -
                ((i + projSeg.length) + dbSeg.length) = j := by omega
            have h2 : i + projSeg.length + dbSeg.length =
                projSeg.length + i + dbSeg.length := by omega
            rw [h1, h2]
          have f3 : j + (i + projSeg.length) + dbSeg.length + docSeg.length =
              projSeg.length + i + dbSeg.length + j + docSeg.length := by omega
          calc s = projSeg ++ s.drop projSeg.length := e0
            _ = projSeg ++ ((s.drop projSeg.length).take i ++ s.drop (projSeg.length + i)) := by
                rw [← e1]
            _ = projSeg ++ ((s.drop projSeg.length).take i ++
                  (dbSeg ++ ((s.drop (projSeg.length + i + dbSeg.length)).take j ++
                    (docSeg ++ s.drop (projSeg.length + i + dbSeg.length + j +
                      docSeg.length))))) := by
                rw [← e4, ← e3, ← e2]
            _ = projSeg ++ (s.take (i + projSeg.length)).drop projSeg.length ++ dbSeg ++
                  (s.take (j + (i + projSeg.length) + dbSeg.length)).drop
                    ((i + projSeg.length) + dbSeg.length) ++ docSeg ++
                  s.drop (j + (i + projSeg.length) + dbSeg.length + docSeg.length) := by
                rw [f1, f2, f3]
                simp [List.append_assoc]
  case _ => cases h

theorem seg_extract (A B C : List Char) :
    ((A ++ B ++ C).take (A.length + B.length)).drop A.length = B := by
  rw [List.take_left' (by simp)]
  exact List.drop_left A B

theorem seg_drop (A C : List Char) : (A ++ C).drop A.length = C := List.drop_left A C

theorem dbSeg_cons : dbSeg = '/' :: "databases/".toList := by rfl

theorem docSeg_cons : docSeg = '/' :: "documents/".toList := by rfl

/-- On a well-formed name with slash-free project and database ids, the
first `"/databases/"` occurrence sits right after the project id. -/
theorem strIndex_dbSeg_at (p r : List Char) (hps : '/' ∉ p) :
    strIndex dbSeg (p ++ dbSeg ++ r) = some p.length := by
  rw [dbSeg_cons]
  exact strIndex_append_notMem hps

/-- Likewise for the first `"/documents/"` occurrence after the database
id. -/
theorem strIndex_docSeg_at (d r : List Char) (hds : '/' ∉ d) :
    strIndex docSeg (d ++ docSeg ++ r) = some d.length := by
  rw [docSeg_cons]
  exact strIndex_append_notMem hds

/-- Completeness half of the claim for `service.parseDocumentName`: every
well-formed name with non-empty, slash-free project and database ids and
a non-empty document path is accepted and split into exactly those
segments. -/
theorem parseDocumentName_complete (ev : DocumentEventData) (v : FDoc)
    (p d w : List Char) (hv : ev.value = some v)
    (hname : v.name = projSeg ++ p ++ dbSeg ++ d ++ docSeg ++ w)
    (hp : p ≠ []) (hd : d ≠ []) (hw : w ≠ [])
    (hps : '/' ∉ p) (hds : '/' ∉ d) :
    parseDocumentName ev = ⟨p, d, w, false⟩ := by
  have hplen : 1 ≤ p.length := List.length_pos.mpr hp
  have hdlen : 1 ≤ d.length := List.length_pos.mpr hd
  have hwlen : 1 ≤ w.length := List.length_pos.mpr hw
  have hnonnil : v.name ≠ [] := by
    rw [hname]
    simp [projSeg]
  have hlen : ¬ v.name.length < minValidLength := by
    rw [hname]
    simp only [List.length_append, minValidLength, projSeg, dbSeg, docSeg]
    simp only [String.toList]
    omega
  have hpre : projSeg.isPrefixOf v.name = true := by
    rw [hname, List.isPrefixOf_iff_prefix]
    simp [List.append_assoc]
  have hdropProj : v.name.drop projSeg.length = p ++ dbSeg ++ (d ++ docSeg ++ w) := by
    rw [hname]
    have : projSeg ++ p ++ dbSeg ++ d ++ docSeg ++ w =
        projSeg ++ (p ++ dbSeg ++ (d ++ docSeg ++ w)) := by
      simp [List.append_assoc]
    rw [this]
    exact seg_drop _ _
  have hidx1 : strIndex dbSeg (v.name.drop projSeg.length) = some p.length := by
    rw [hdropProj]
    exact strIndex_dbSeg_at p _ hps
  have hproj : (v.name.take (p.length + projSeg.length)).drop projSeg.length = p := by
    rw [Nat.add_comm p.length projSeg.length, hname]
    have : projSeg ++ p ++ dbSeg ++ d ++ docSeg ++ w =
        projSeg ++ p ++ (dbSeg ++ d ++ docSeg ++ w) := by
      simp [List.append_assoc]
    rw [this]
    exact seg_extract projSeg p _
  have hdropDb : v.name.drop (p.length + projSeg.length + dbSeg.length) =
      d ++ docSeg ++ w := by
    rw [hname]
    have harr : projSeg ++ p ++ dbSeg ++ d ++ docSeg ++ w =
        (projSeg ++ p ++ dbSeg) ++ (d ++ docSeg ++ w) := by
      simp [List.append_assoc]
    have hlen2 : (projSeg ++ p ++ dbSeg).length =
        p.length + projSeg.length + dbSeg.length := by
      simp
      omega
    rw [harr, List.drop_left' hlen2]
  have hidx2 : strIndex docSeg (v.name.drop (p.length + projSeg.length + dbSeg.length)) =
      some d.length := by
    rw [hdropDb]
    exact strIndex_docSeg_at d _ hds
  have hdb : (v.name.take (d.length + (p.length + projSeg.length) + dbSeg.length)).drop
      (p.length + projSeg.length + dbSeg.length) = d := by
    rw [hname]
    have harr : projSeg ++ p ++ dbSeg ++ d ++ docSeg ++ w =
        (projSeg ++ p ++ dbSeg) ++ d ++ (docSeg ++ w) := by
      simp [List.append_assoc]
    have hlen3 : (projSeg ++ p ++ dbSeg).length + d.length =
        d.length + (p.length + projSeg.length) + dbSeg.length := by
      simp
      omega
    have hlen4 : (projSeg ++ p ++ dbSeg).length =
        p.length + projSeg.length + dbSeg.length := by
      simp
      omega
    rw [harr, ← hlen3, ← hlen4]
    exact seg_extract _ d _
  have hpath : v.name.drop (d.length + (p.length + projSeg.length) + dbSeg.length +
      docSeg.length) = w := by
    rw [hname]
    have harr : projSeg ++ p ++ dbSeg ++ d ++ docSeg ++ w =
        (projSeg ++ p ++ dbSeg ++ d ++ docSeg) ++ w := by
      simp [List.append_assoc]
    have hlen5 : (projSeg ++ p ++ dbSeg ++ d ++ docSeg).length =
        d.length + (p.length + projSeg.length) + dbSeg.length + docSeg.length := by
      simp
      omega
    rw [harr, List.drop_left' hlen5]
  simp only [parseDocumentName, hv]
  rw [if_neg hnonnil]
  rw [if_neg hlen]
  rw [if_neg (by simp [hpre])]
  simp only [hidx1]
  simp only [hproj]
  rw [if_neg (by
    push_neg
    exact ⟨hp, hps⟩)]
  simp only [hidx2]
  simp only [hdb]
  rw [if_neg (by
    push_neg
    exact ⟨hd, hds⟩)]
  simp only [hpath]
  rw [if_neg hw]

/-- Shared reconstruction core: a name whose `projects/` check and two
infix searches succeeded is exactly the concatenation of what the parsers
slice out of it. -/
theorem name_reconstruct {s : List Char} {i j : Nat}
    (hpre0 : projSeg <+: s)
    (hi : strIndex dbSeg (s.drop projSeg.length) = some i)
    (hj : strIndex docSeg (s.drop (i + projSeg.length + dbSeg.length)) = some j) :
    s = projSeg ++ (s.take (i + projSeg.length)).drop projSeg.length ++ dbSeg ++
        (s.take (j + (i + projSeg.length) + dbSeg.length)).drop
          ((i + projSeg.length) + dbSeg.length) ++ docSeg ++
        s.drop (j + (i + projSeg.length) + dbSeg.length + docSeg.length) := by
  have hpre1 : dbSeg <+: s.drop (projSeg.length + i) := by
    have t1 := strIndex_prefix hi
    rwa [List.drop_drop] at t1
  have hpre2 : docSeg <+: s.drop (projSeg.length + i + dbSeg.length + j) := by
    have t2 := strIndex_prefix hj
    rw [List.drop_drop] at t2
    have harith : i + projSeg.length + dbSeg.length + j =
        projSeg.length + i + dbSeg.length + j := by omega
    rwa [harith] at t2
  have e0 : s = projSeg ++ s.drop projSeg.length := by
    conv_lhs => rw [← List.take_append_drop projSeg.length s]
    congr 1
    exact (List.prefix_iff_eq_take.mp hpre0).symm
  have e1 : s.drop projSeg.length =
      (s.drop projSeg.length).take i ++ s.drop (projSeg.length + i) :=
    take_drop_middle s projSeg.length i
  have e2 : s.drop (projSeg.length + i) =
      dbSeg ++ s.drop (projSeg.length + i + dbSeg.length) :=
    prefix_drop_decomp hpre1
  have e3 : s.drop (projSeg.length + i + dbSeg.length) =
      (s.drop (projSeg.length + i + dbSeg.length)).take j ++
        s.drop (projSeg.length + i + dbSeg.length + j) :=
    take_drop_middle s (projSeg.length + i + dbSeg.length) j
  have e4 : s.drop (projSeg.length + i + dbSeg.length + j) =
      docSeg ++ s.drop (projSeg.length + i + dbSeg.length + j + docSeg.length) :=
    prefix_drop_decomp hpre2
  have f1 : (s.take (i + projSeg.length)).drop projSeg.length =
      (s.drop projSeg.length).take i := by
    rw [List.drop_take, Nat.add_sub_cancel]
  have f2 : (s.take (j + (i + projSeg.length) + dbSeg.length)).drop
        ((i + projSeg.length) + dbSeg.length) =
      (s.drop (projSeg.length + i + dbSeg.length)).take j := by
    rw [List.drop_take]
    have h1 : j + (i + projSeg.length) + dbSeg.length -
        ((i + projSeg.length) + dbSeg.length) = j := by omega
    have h2 : i + projSeg.length + dbSeg.length =
        projSeg.length + i + dbSeg.length := by omega
    rw [h1, h2]
  have f3 : j + (i + projSeg.length) + dbSeg.length + docSeg.length =
      projSeg.length + i + dbSeg.length + j + docSeg.length := by omega
  calc s = projSeg ++ s.drop projSeg.length := e0
    _ = projSeg ++ ((s.drop projSeg.length).take i ++ s.drop (projSeg.length + i)) := by
        rw [← e1]
    _ = projSeg ++ ((s.drop projSeg.length).take i ++
          (dbSeg ++ ((s.drop (projSeg.length + i + dbSeg.length)).take j ++
            (docSeg ++ s.drop (projSeg.length + i + dbSeg.length + j +
              docSeg.length))))) := by
        rw [← e4, ← e3, ← e2]
    _ = projSeg ++ (s.take (i + projSeg.length)).drop projSeg.length ++ dbSeg ++
          (s.take (j + (i + projSeg.length) + dbSeg.length)).drop
            ((i + projSeg.length) + dbSeg.length) ++ docSeg ++
          s.drop (j + (i + projSeg.length) + dbSeg.length + docSeg.length) := by
        rw [f1, f2, f3]
        simp [List.append_assoc]

/-- Soundness half for `service.parseDocumentName`: an accepted after-image
name is exactly the concatenation of the returned segments, with non-empty
slash-free project and database ids. -/
theorem parseDocumentName_sound (ev : DocumentEventData) (v : FDoc) (dn : SvcDocumentName)
    (hv : ev.value = some v) (hnm : v.name ≠ [])
    (hres : parseDocumentName ev = dn) (hne : dn.documentPath ≠ []) :
    v.name = projSeg ++ dn.projectID ++ dbSeg ++ dn.databaseID ++ docSeg ++ dn.documentPath ∧
    dn.projectID ≠ [] ∧ '/' ∉ dn.projectID ∧ dn.databaseID ≠ [] ∧ '/' ∉ dn.databaseID ∧
    dn.isOld = false := by
  simp only [parseDocumentName, hv] at hres
  rw [if_neg hnm] at hres
  split at hres
  · exact absurd (hres ▸ rfl : dn.documentPath = []) hne
  · split at hres
    · exact absurd (hres ▸ rfl : dn.documentPath = []) hne
    case _ hguard =>
      split at hres
      · exact absurd (hres ▸ rfl : dn.documentPath = []) hne
      case _ i hidx1 =>
        split at hres
        · exact absurd (hres ▸ rfl : dn.documentPath = []) hne
        case _ hcond1 =>
          split at hres
          · exact absurd (hres ▸ rfl : dn.documentPath = []) hne
          case _ j hidx2 =>
            split at hres
            · exact absurd (hres ▸ rfl : dn.documentPath = []) hne
            case _ hcond2 =>
              split at hres
              · exact absurd (hres ▸ rfl : dn.documentPath = []) hne
              case _ hcond3 =>
                push_neg at hcond1 hcond2
                have hpre0 : projSeg <+: v.name := by
                  rw [← List.isPrefixOf_iff_prefix]
                  by_contra hcontra
                  exact hguard (by simpa using hcontra)
                cases hres
                exact ⟨name_reconstruct hpre0 hidx1 hidx2, hcond1.1, hcond1.2,
                  hcond2.1, hcond2.2, rfl⟩

/-- C9: the tombstone id is the unpadded URL-safe base64 encoding of the
SHA-256 hash of the path portion after `/documents/`; it is a pure
deterministic function of that path, so equal paths yield the same id.
The last conjunct grounds the embedded hash against a concrete digest of
`"users/123"`. -/
theorem c9_tombstone_id :
    (∀ path, TombstoneID path = base64UrlNoPad (sha256Sum (utf8Bytes path))) ∧
    (∀ p q : List Char, p = q → TombstoneID p = TombstoneID q) ∧
    (∀ s i, strIndex docSeg s = some i →
      tombstoneRefID s = some (TombstoneID (s.drop (i + docSeg.length)))) ∧
    TombstoneID "users/123".toList = "sdha8NXwNUEFpGqlzXGuwE1yQ8vxFkzebAVpxDQWrF0".toList := by
  refine ⟨fun _ => rfl, fun p q h => by rw [h], fun s i h => ?_, by decide⟩
  simp only [tombstoneRefID, h]

/-- C9 witness: the third conjunct applied to a concrete document
reference path. -/
theorem c9_tombstone_id_witness :
    strIndex docSeg "projects/p/databases/d/documents/users/123".toList = some 22 ∧
    tombstoneRefID "projects/p/databases/d/documents/users/123".toList =
      some (TombstoneID ("projects/p/databases/d/documents/users/123".toList.drop
        (22 + docSeg.length))) :=
  ⟨by decide, c9_tombstone_id.2.2.1 _ 22 (by decide)⟩

/-- C10: parse/serialize round-trip - for every string accepted by
`NewDocumentFromPath` yielding `n`, `String()` reproduces the input
exactly, so parsing it again yields `n`. -/
theorem c10_round_trip (s : List Char) (n : DocumentName)
    (h : NewDocumentFromPath s = some n) :
    docNameString n = s ∧ NewDocumentFromPath (docNameString n) = some n := by
  have hr := NewDocumentFromPath_reconstruct h
  have hs : docNameString n = s := by
    rw [docNameString, ← hr.1]
  exact ⟨hs, hs ▸ h⟩

/-- C10 witness: the round-trip at a concrete accepted input. -/
theorem c10_round_trip_witness :
    NewDocumentFromPath "projects/p/databases/d/documents/col/doc/col2/doc2".toList =
      some ⟨"p".toList, "d".toList, "col/doc/col2/doc2".toList⟩ ∧
    NewDocumentFromPath (docNameString ⟨"p".toList, "d".toList, "col/doc/col2/doc2".toList⟩) =
      some ⟨"p".toList, "d".toList, "col/doc/col2/doc2".toList⟩ :=
  ⟨by decide, (c10_round_trip "projects/p/databases/d/documents/col/doc/col2/doc2".toList
    ⟨"p".toList, "d".toList, "col/doc/col2/doc2".toList⟩ (by decide)).2⟩

/-- C8 counterexample: the claim says inputs with extra slashes inside the
project id are rejected, but `model.NewDocumentFromPath` accepts this one,
folding the slash into the project id. -/
theorem c8_counterexample :
    NewDocumentFromPath "projects/my/project/databases/my-db/documents/users/123".toList =
      some ⟨"my/project".toList, "my-db".toList, "users/123".toList⟩ := by
  decide

/-- C8 amended: the service-level `parseDocumentName` accepts exactly the
strings `projects/{p}/databases/{d}/documents/{path}` with non-empty
segments and slash-free project and database ids (soundness and
completeness below), while `model.NewDocumentFromPath` enforces only the
prefix, the two infixes in order and non-emptiness, folding extra slashes
into the ids. -/
theorem c8_docname_parsing :
    (∀ ev v dn, ev.value = some v → v.name ≠ [] → parseDocumentName ev = dn →
      dn.documentPath ≠ [] →
      v.name = projSeg ++ dn.projectID ++ dbSeg ++ dn.databaseID ++ docSeg ++
        dn.documentPath ∧
      dn.projectID ≠ [] ∧ '/' ∉ dn.projectID ∧ dn.databaseID ≠ [] ∧ '/' ∉ dn.databaseID) ∧
    (∀ ev v p d w, ev.value = some v →
      v.name = projSeg ++ p ++ dbSeg ++ d ++ docSeg ++ w → p ≠ [] → d ≠ [] → w ≠ [] →
      '/' ∉ p → '/' ∉ d → parseDocumentName ev = ⟨p, d, w, false⟩) ∧
    (∀ s m, NewDocumentFromPath s = some m →
      s = projSeg ++ m.projectID ++ dbSeg ++ m.databaseID ++ docSeg ++ m.path ∧
      m.projectID ≠ [] ∧ m.databaseID ≠ [] ∧ m.path ≠ []) := by
  refine ⟨fun ev v dn hv hnm hres hne => ?_, fun ev v p d w hv hn hp hd hw hps hds => ?_,
    fun s m h => NewDocumentFromPath_reconstruct h⟩
  · have hs := parseDocumentName_sound ev v dn hv hnm hres hne
    exact ⟨hs.1, hs.2.1, hs.2.2.1, hs.2.2.2.1, hs.2.2.2.2.1⟩
  · exact parseDocumentName_complete ev v p d w hv hn hp hd hw hps hds

/-- C8 witness: completeness applied at a concrete event. -/
theorem c8_docname_parsing_witness :
    parseDocumentName ⟨some ⟨"projects/p1/databases/d1/documents/u/7".toList, 0, []⟩,
      none, none⟩ = ⟨"p1".toList, "d1".toList, "u/7".toList, false⟩ :=
  c8_docname_parsing.2.1 _ ⟨"projects/p1/databases/d1/documents/u/7".toList, 0, []⟩
    "p1".toList "d1".toList "u/7".toList rfl (by decide) (by decide) (by decide)
    (by decide) (by decide) (by decide)

/-- C1: loop prevention - an event classified `Replicated` or `Tombstone`
makes `Propagate` return `Skipped` with no datastore transaction (hence
zero reads and writes), an unchanged store and zero publishes; the
in-tree legacy stub (internal/service/propagator.go lines 103-109)
likewise returns `Skipped` with a nil error for those classifications. -/
theorem c1_loop_prevention :
    (∀ env st e, (e.type = .replicated ∨ e.type = .tombstone) →
      Propagate env st e = ⟨.skipped, st, 0, []⟩) ∧
    (∀ ev, ¬((parseDocumentName ev).projectID = [] ∨
        (parseDocumentName ev).databaseID = [] ∨
        (parseDocumentName ev).documentPath = []) →
      (newEventType (parseDocumentName ev) ev = .replicatedT ∨
        newEventType (parseDocumentName ev) ev = .tombstoneT) →
      stubPropagate ev = (.skipped, false)) := by
  constructor
  · intro env st e h
    unfold Propagate
    rw [if_pos h]
  · intro ev hvalid hskip
    unfold stubPropagate
    rw [if_neg hvalid, if_pos hskip]

/-- C1 witness: both halves at a concrete replicated event. -/
theorem c1_loop_prevention_witness :
    Propagate ⟨"projects/p/databases/d".toList, [], 86400, false, true⟩ ⟨[], []⟩
      ⟨.replicated, ⟨"p".toList, "d".toList, "users/1".toList⟩, 100, ⟨none, none, none⟩⟩ =
      ⟨.skipped, ⟨[], []⟩, 0, []⟩ ∧
    stubPropagate ⟨some ⟨"projects/p/databases/d/documents/users/1".toList, 100,
        [(firesyncKey, .nullV)]⟩, none, none⟩ = (.skipped, false) :=
  ⟨c1_loop_prevention.1 _ _ _ (Or.inl rfl),
   c1_loop_prevention.2 _ (by decide) (Or.inl (by decide))⟩

/-- C2: for `Created`, `Updated` and `Deleted` events `Propagate` runs
exactly one datastore transaction; it returns `Success` only when the
transaction committed and the publish was acknowledged, in which case
exactly one wire message was published; the only other possible results
are `Skipped` and `Error`. -/
theorem c2_propagate_contract (env : PropEnv) (st : Store) (e : MEvent)
    (h : e.type = .created ∨ e.type = .updated ∨ e.type = .deleted) :
    (Propagate env st e).txCount = 1 ∧
    ((Propagate env st e).result = .success →
      env.txAborts = false ∧ env.publishAckOk = true ∧
      (Propagate env st e).published.length = 1) ∧
    ((Propagate env st e).result = .success ∨ (Propagate env st e).result = .skipped ∨
      (Propagate env st e).result = .error) := by
  have hne : ¬(e.type = .replicated ∨ e.type = .tombstone) := by
    rcases h with h | h | h <;> simp [h]
  unfold Propagate
  rw [if_neg hne]
  by_cases ha : env.txAborts
  · simp [ha]
  · rw [if_neg ha]
    set r := (match e.type with
      | EventType.created => processCreateEvent env st e
      | EventType.updated => processUpdateEvent env st e
      | EventType.deleted => processDeleteEvent env st e
      | _ => (st, false)) with hr
    have ha2 : env.txAborts = false := by simpa using ha
    by_cases hsp : r.2
    · by_cases hack : env.publishAckOk
      · simp [hsp, hack, ha2]
      · simp [hsp, hack]
    · simp [hsp]

/-- C2 witness: a concrete created event against an empty datastore. -/
theorem c2_propagate_contract_witness :
    ((⟨.created, ⟨"p".toList, "d".toList, "users/1".toList⟩, 100,
        ⟨none, none, none⟩⟩ : MEvent).type = .created ∨
      (⟨.created, ⟨"p".toList, "d".toList, "users/1".toList⟩, 100,
        ⟨none, none, none⟩⟩ : MEvent).type = .updated ∨
      (⟨.created, ⟨"p".toList, "d".toList, "users/1".toList⟩, 100,
        ⟨none, none, none⟩⟩ : MEvent).type = .deleted) ∧
    (Propagate ⟨"projects/p/databases/d".toList, [], 86400, false, true⟩ ⟨[], []⟩
      ⟨.created, ⟨"p".toList, "d".toList, "users/1".toList⟩, 100,
        ⟨none, none, none⟩⟩).txCount = 1 :=
  ⟨Or.inl rfl,
   (c2_propagate_contract ⟨"projects/p/databases/d".toList, [], 86400, false, true⟩ ⟨[], []⟩
     ⟨.created, ⟨"p".toList, "d".toList, "users/1".toList⟩, 100,
       ⟨none, none, none⟩⟩ (Or.inl rfl)).1⟩

theorem alookup_aset_self {α : Type} (l : List (List Char × α)) (k : List Char) (v : α) :
    alookup (aset l k v) k = some v := by
  induction l with
  | nil => simp [aset, alookup]
  | cons hd t ih =>
    obtain ⟨k', w⟩ := hd
    by_cases hk : k' = k
    · simp [aset, hk, alookup]
    · simp [aset, hk, alookup, ih]

/-- C3 counterexample: a `Deleted` event against a live, strictly newer
document (spec §8 scenario 4: `State=Live(300)`, `Deleted{t=250}`): no
tombstone exists for the path, yet the core creates none and publishes
nothing, refuting the claim's unconditional tombstone-creation half. -/
theorem c3_counterexample :
    (⟨[("users/1".toList, ⟨300, some ⟨300, "projects/p/databases/d".toList, []⟩⟩)],
        []⟩ : Store).tombs = [] ∧
    Propagate ⟨"projects/p/databases/d".toList, [], 86400, false, true⟩
      ⟨[("users/1".toList, ⟨300, some ⟨300, "projects/p/databases/d".toList, []⟩⟩)], []⟩
      ⟨.deleted, ⟨"p".toList, "d".toList, "users/1".toList⟩, 250, ⟨none, none, none⟩⟩ =
      ⟨.skipped,
        ⟨[("users/1".toList, ⟨300, some ⟨300, "projects/p/databases/d".toList, []⟩⟩)], []⟩,
        1, []⟩ :=
  ⟨rfl, rfl⟩

theorem processDeleteEvent_noDoc (env : PropEnv) (st : Store) (e : MEvent)
    (hdoc : alookup st.docs e.name.path = none) :
    processDeleteEvent env st e = deleteTombstonePhase env st e := by
  unfold processDeleteEvent
  rw [hdoc]

theorem deleteTombstonePhase_noTomb (env : PropEnv) (st : Store) (e : MEvent)
    (htomb : alookup st.tombs (tombstonePath e.name.path) = none) :
    deleteTombstonePhase env st e =
      ({ st with tombs := aset st.tombs (tombstonePath e.name.path) (freshTombstone env e) },
        true) := by
  simp only [deleteTombstonePhase]
  rw [htomb]

theorem deleteTombstonePhase_newer (env : PropEnv) (st : Store) (e : MEvent)
    (tomb : TombstoneRec)
    (htomb : alookup st.tombs (tombstonePath e.name.path) = some tomb)
    (hlt : e.timestamp < tomb.ts) :
    deleteTombstonePhase env st e = (st, false) := by
  simp only [deleteTombstonePhase]
  rw [htomb]
  simp [hlt]

theorem Propagate_deleted (env : PropEnv) (st : Store) (e : MEvent)
    (htype : e.type = .deleted) (habort : env.txAborts = false) :
    Propagate env st e =
      if (processDeleteEvent env st e).2 then
        if env.publishAckOk then
          ⟨.success, (processDeleteEvent env st e).1, 1,
            [⟨e.data, e.type, e.timestamp, e.name.projectID, e.name.databaseID,
              e.name.path, env.trace⟩]⟩
        else
          ⟨.error, (processDeleteEvent env st e).1, 1,
            [⟨e.data, e.type, e.timestamp, e.name.projectID, e.name.databaseID,
              e.name.path, env.trace⟩]⟩
      else ⟨.skipped, (processDeleteEvent env st e).1, 1, []⟩ := by
  have hne : ¬(e.type = .replicated ∨ e.type = .tombstone) := by simp [htype]
  unfold Propagate
  rw [if_neg hne, if_neg (by simp [habort])]
  simp only [htype]

/-- C3 amended: for every `Deleted` event processed in a committing
transaction while no live document remains at the path - if no tombstone
exists, the core creates `{documentRef, timestamp=event.timestamp,
source, trace, expiration=event.timestamp+tombstoneTTL}` and publishes
one message; if a tombstone with a strictly greater timestamp exists, the
store is unchanged, nothing is published and the result is `Skipped`. -/
theorem c3_deleted_subprotocol (env : PropEnv) (st : Store) (e : MEvent)
    (htype : e.type = .deleted) (habort : env.txAborts = false)
    (hdoc : alookup st.docs e.name.path = none) :
    (alookup st.tombs (tombstonePath e.name.path) = none →
      alookup (Propagate env st e).store.tombs (tombstonePath e.name.path) =
        some (freshTombstone env e) ∧
      (Propagate env st e).published.length = 1) ∧
    (∀ tomb, alookup st.tombs (tombstonePath e.name.path) = some tomb →
      e.timestamp < tomb.ts →
      (Propagate env st e).store = st ∧ (Propagate env st e).published = [] ∧
      (Propagate env st e).result = .skipped) := by
  constructor
  · intro htomb
    rw [Propagate_deleted env st e htype habort, processDeleteEvent_noDoc env st e hdoc,
      deleteTombstonePhase_noTomb env st e htomb]
    by_cases hack : env.publishAckOk
    · simp [hack, alookup_aset_self]
    · simp [hack, alookup_aset_self]
  · intro tomb htomb hlt
    rw [Propagate_deleted env st e htype habort, processDeleteEvent_noDoc env st e hdoc,
      deleteTombstonePhase_newer env st e tomb htomb hlt]
    simp

/-- C3 witness: the amended tombstone-creation half against an empty
datastore. -/
theorem c3_deleted_subprotocol_witness :
    (⟨.deleted, ⟨"p".toList, "d".toList, "users/1".toList⟩, 200,
      ⟨none, none, none⟩⟩ : MEvent).type = .deleted ∧
    (⟨"projects/p/databases/d".toList, [], 86400, false, true⟩ : PropEnv).txAborts = false ∧
    alookup (⟨[], []⟩ : Store).docs "users/1".toList = none ∧
    (alookup (⟨[], []⟩ : Store).tombs (tombstonePath "users/1".toList) = none →
      alookup (Propagate ⟨"projects/p/databases/d".toList, [], 86400, false, true⟩ ⟨[], []⟩
          ⟨.deleted, ⟨"p".toList, "d".toList, "users/1".toList⟩, 200,
            ⟨none, none, none⟩⟩).store.tombs (tombstonePath "users/1".toList) =
        some (freshTombstone ⟨"projects/p/databases/d".toList, [], 86400, false, true⟩
          ⟨.deleted, ⟨"p".toList, "d".toList, "users/1".toList⟩, 200,
            ⟨none, none, none⟩⟩) ∧
      (Propagate ⟨"projects/p/databases/d".toList, [], 86400, false, true⟩ ⟨[], []⟩
          ⟨.deleted, ⟨"p".toList, "d".toList, "users/1".toList⟩, 200,
            ⟨none, none, none⟩⟩).published.length = 1) :=
  ⟨rfl, rfl, rfl,
   (c3_deleted_subprotocol ⟨"projects/p/databases/d".toList, [], 86400, false, true⟩
     ⟨[], []⟩ ⟨.deleted, ⟨"p".toList, "d".toList, "users/1".toList⟩, 200,
       ⟨none, none, none⟩⟩ rfl rfl rfl).1⟩

/-- C4: exact-segment mask matching - `hasAnyFiresyncFields` fires exactly
when a mask entry equals `_firesync` or starts with `_firesync.`; on a
two-image event with a mask, the classifier in use
(`model.ParseEvent`, wired via internal/handler and cmd/firesync) yields
`Replicated` under that condition and `Updated` otherwise, and `Updated`
events enter the propagation transaction instead of being skipped. -/
theorem c4_exact_segment_matching :
    (∀ mask, hasAnyFiresyncFields mask = true ↔
      ∃ f ∈ mask, f = firesyncKey ∨ firesyncDot.isPrefixOf f) ∧
    (∀ ev t v dn mask, ev.value = some v → ev.oldValue ≠ none → ev.updateMask = some mask →
      NewDocumentFromPath v.name = some dn → tombSeg.isPrefixOf dn.path = false →
      ParseEvent ev t = .ok ⟨if hasAnyFiresyncFields mask then .replicated else .updated,
        dn, v.updateTime, ev⟩) ∧
    (∀ env st e, e.type = .updated → (Propagate env st e).txCount = 1) := by
  refine ⟨?_, ?_, ?_⟩
  · intro mask
    induction mask with
    | nil => simp [hasAnyFiresyncFields]
    | cons f rest ih =>
      by_cases hf : f = firesyncKey ∨ firesyncDot.isPrefixOf f
      · simp only [hasAnyFiresyncFields, if_pos hf]
        exact ⟨fun _ => ⟨f, List.mem_cons_self f rest, hf⟩, fun _ => trivial⟩
      · simp only [hasAnyFiresyncFields, if_neg hf, ih]
        constructor
        · intro ⟨g, hg, hgc⟩
          exact ⟨g, List.mem_cons_of_mem f hg, hgc⟩
        · intro ⟨g, hg, hgc⟩
          rcases List.mem_cons.mp hg with rfl | hmem
          · exact absurd hgc hf
          · exact ⟨g, hmem, hgc⟩
  · intro ev t v dn mask hv hold hmask hdn hts
    obtain ⟨o, ho⟩ := Option.ne_none_iff_exists'.mp hold
    simp only [ParseEvent, hv, hdn, hts, Bool.false_eq_true, if_false, ho, hmask]
    by_cases hm : hasAnyFiresyncFields mask
    · simp [hm]
    · simp [hm]
  · intro env st e htype
    have hne : ¬(e.type = .replicated ∨ e.type = .tombstone) := by simp [htype]
    unfold Propagate
    rw [if_neg hne]
    by_cases ha : env.txAborts
    · simp [ha]
    · rw [if_neg ha]
      by_cases hsp : (match e.type with
        | EventType.created => processCreateEvent env st e
        | EventType.updated => processUpdateEvent env st e
        | EventType.deleted => processDeleteEvent env st e
        | _ => (st, false)).2
      · by_cases hack : env.publishAckOk <;> simp [hsp, hack]
      · simp [hsp]

/-- C4 witness: a mask holding only `_firesynced` is classified `Updated`,
not `Replicated`. -/
theorem c4_exact_segment_matching_witness :
    hasAnyFiresyncFields ["_firesynced".toList] = false ∧
    ParseEvent ⟨some ⟨"projects/p/databases/d/documents/users/1".toList, 5, []⟩,
        some ⟨"projects/p/databases/d/documents/users/1".toList, 4, []⟩,
        some ["_firesynced".toList]⟩ 9 =
      .ok ⟨if hasAnyFiresyncFields ["_firesynced".toList] then .replicated else .updated,
        ⟨"p".toList, "d".toList, "users/1".toList⟩, 5,
        ⟨some ⟨"projects/p/databases/d/documents/users/1".toList, 5, []⟩,
          some ⟨"projects/p/databases/d/documents/users/1".toList, 4, []⟩,
          some ["_firesynced".toList]⟩⟩ :=
  ⟨by decide,
   c4_exact_segment_matching.2.1 _ 9 ⟨"projects/p/databases/d/documents/users/1".toList, 5, []⟩
     ⟨"p".toList, "d".toList, "users/1".toList⟩ ["_firesynced".toList] rfl
     (by simp) rfl (by decide) (by decide)⟩

/-- C5: clock policy - events classified `Created` or `Updated` carry the
after-image's `updateTime`; events classified `Deleted` carry the
handler-chosen intake time, which is the parsed `ce-time` value exactly
when it is strictly earlier than the wall clock and the wall clock
otherwise (absent or unparseable headers fall back to the wall clock). -/
theorem c5_clock_policy :
    (∀ ev t e, ParseEvent ev t = .ok e → e.type = .created ∨ e.type = .updated →
      ∃ doc, ev.value = some doc ∧ e.timestamp = doc.updateTime) ∧
    (∀ ev t e, ParseEvent ev t = .ok e → e.type = .deleted → e.timestamp = t) ∧
    (∀ now t, intakeEventTime now (some (some t)) = if t < now then t else now) ∧
    (∀ now, intakeEventTime now none = now) ∧
    (∀ now, intakeEventTime now (some none) = now) := by
  refine ⟨?_, ?_, fun now t => rfl, fun now => rfl, fun now => rfl⟩
  · intro ev t e h htype
    simp only [ParseEvent] at h
    split at h
    case _ hv =>
      split at h
      · cases h
      case _ o ho =>
        split at h
        · cases h
        case _ dn hdn =>
          split at h <;> cases h <;> rcases htype with ht | ht <;> simp at ht
    case _ doc hv =>
      split at h
      · cases h
      case _ dn hdn =>
        refine ⟨doc, hv, ?_⟩
        split at h
        · cases h
          rfl
        · split at h
          · split at h <;> cases h <;> rfl
          · split at h
            · cases h
            · split at h <;> cases h <;> rfl
  · intro ev t e h htype
    simp only [ParseEvent] at h
    split at h
    case _ hv =>
      split at h
      · cases h
      case _ o ho =>
        split at h
        · cases h
        case _ dn hdn =>
          split at h <;> cases h
          · simp at htype
          · rfl
    case _ doc hv =>
      split at h
      · cases h
      case _ dn hdn =>
        split at h
        · cases h
          simp at htype
        · split at h
          · split at h <;> cases h <;> simp at htype
          · split at h
            · cases h
            · split at h <;> cases h <;> simp at htype

/-- C5 witness: a delete event takes the intake time, and a `ce-time`
strictly earlier than the wall clock overrides it. -/
theorem c5_clock_policy_witness :
    ParseEvent ⟨none, some ⟨"projects/p/databases/d/documents/users/1".toList, 4, []⟩,
        none⟩ 77 =
      .ok ⟨.deleted, ⟨"p".toList, "d".toList, "users/1".toList⟩, 77,
        ⟨none, some ⟨"projects/p/databases/d/documents/users/1".toList, 4, []⟩, none⟩⟩ ∧
    (⟨.deleted, ⟨"p".toList, "d".toList, "users/1".toList⟩, 77,
      ⟨none, some ⟨"projects/p/databases/d/documents/users/1".toList, 4, []⟩,
        none⟩⟩ : MEvent).timestamp = 77 ∧
    intakeEventTime 100 (some (some 77)) = if (77 : Int) < 100 then 77 else 100 :=
  ⟨rfl,
   c5_clock_policy.2.1 ⟨none, some ⟨"projects/p/databases/d/documents/users/1".toList, 4, []⟩,
       none⟩ 77
     ⟨.deleted, ⟨"p".toList, "d".toList, "users/1".toList⟩, 77,
       ⟨none, some ⟨"projects/p/databases/d/documents/users/1".toList, 4, []⟩, none⟩⟩
     (by rfl) rfl,
   c5_clock_policy.2.2.1 100 77⟩

/-- C6 counterexample: an event with both images, a path inside the
`_firesync` tombstone collection and no update mask is classified
`Tombstone` without error, although the claim's error condition "both
images present and mask absent" holds. -/
theorem c6_counterexample :
    (⟨some ⟨"projects/p/databases/d/documents/_firesync/abc".toList, 5, []⟩,
        some ⟨"projects/p/databases/d/documents/users/1".toList, 4, []⟩, none⟩ :
      DocumentEventData).value ≠ none ∧
    (⟨some ⟨"projects/p/databases/d/documents/_firesync/abc".toList, 5, []⟩,
        some ⟨"projects/p/databases/d/documents/users/1".toList, 4, []⟩, none⟩ :
      DocumentEventData).oldValue ≠ none ∧
    (⟨some ⟨"projects/p/databases/d/documents/_firesync/abc".toList, 5, []⟩,
        some ⟨"projects/p/databases/d/documents/users/1".toList, 4, []⟩, none⟩ :
      DocumentEventData).updateMask = none ∧
    ParseEvent ⟨some ⟨"projects/p/databases/d/documents/_firesync/abc".toList, 5, []⟩,
        some ⟨"projects/p/databases/d/documents/users/1".toList, 4, []⟩, none⟩ 0 =
      .ok ⟨.tombstone, ⟨"p".toList, "d".toList, "_firesync/abc".toList⟩, 5,
        ⟨some ⟨"projects/p/databases/d/documents/_firesync/abc".toList, 5, []⟩,
          some ⟨"projects/p/databases/d/documents/users/1".toList, 4, []⟩, none⟩⟩ := by
  refine ⟨by simp, by simp, rfl, ?_⟩
  rfl

/-- C6 amended: the classifier errors exactly when neither image is
present, or the relevant document name fails to parse, or both images are
present with the path outside the `_firesync` tombstone collection and no
update mask; every successful classification is one of the five event
types (never `Unknown`). -/
theorem c6_malformed_events (ev : DocumentEventData) (t : Int) :
    ((∃ msg, ParseEvent ev t = .error msg) ↔
      (ev.value = none ∧ ev.oldValue = none) ∨
      (ev.value = none ∧ ∃ o, ev.oldValue = some o ∧ NewDocumentFromPath o.name = none) ∨
      (∃ v, ev.value = some v ∧ NewDocumentFromPath v.name = none) ∨
      (∃ v dn, ev.value = some v ∧ NewDocumentFromPath v.name = some dn ∧
        tombSeg.isPrefixOf dn.path = false ∧ ev.oldValue ≠ none ∧ ev.updateMask = none)) ∧
    (∀ e, ParseEvent ev t = .ok e → e.type ≠ .unknown) := by
  obtain ⟨val, old, mask⟩ := ev
  constructor
  · cases val with
    | none =>
      cases old with
      | none => simp [ParseEvent]
      | some o =>
        cases hdn : NewDocumentFromPath o.name with
        | none => simp [ParseEvent, hdn]
        | some dn =>
          by_cases hts : tombSeg.isPrefixOf dn.path <;> simp [ParseEvent, hdn, hts]
    | some v =>
      cases hdn : NewDocumentFromPath v.name with
      | none => simp [ParseEvent, hdn]
      | some dn =>
        by_cases hts : tombSeg.isPrefixOf dn.path
        · simp [ParseEvent, hdn, hts]
        · cases old with
          | none =>
            by_cases hf : (alookup v.fields firesyncKey).isSome <;>
              simp [ParseEvent, hdn, hts, hf]
          | some o =>
            cases mask with
            | none => simp [ParseEvent, hdn, hts]
            | some m =>
              by_cases hm : hasAnyFiresyncFields m <;> simp [ParseEvent, hdn, hts, hm]
  · intro e h
    simp only [ParseEvent] at h
    split at h
    · split at h
      · cases h
      · split at h
        · cases h
        · split at h <;> cases h <;> simp
    · split at h
      · cases h
      · split at h
        · cases h
          simp
        · split at h
          · split at h <;> cases h <;> simp
          · split at h
            · cases h
            · split at h <;> cases h <;> simp

/-- C6 witness: the amended error characterization applied to the
neither-image event. -/
theorem c6_malformed_events_witness :
    ∃ msg, ParseEvent ⟨none, none, none⟩ 0 = .error msg :=
  (c6_malformed_events ⟨none, none, none⟩ 0).1.mpr (Or.inl ⟨rfl, rfl⟩)

/-- C7: HTTP response mapping of the propagate handler - 415 for an
unsupported media type, 400 for body or event parse failures, 500 when
the propagator errs or returns `Error`, 202 for `Success` and 204 for
`Skipped` (both 200 in forced-200 mode). -/
theorem c7_status_mapping (force200 : Bool) (fn : MEvent → PropagationResult × Bool)
    (req : PropagateRequest) :
    (parseFirestoreDocumentEventData req = .error .unsupported →
      propagateHandler force200 fn req = 415) ∧
    (parseFirestoreDocumentEventData req = .error .decodeFail →
      propagateHandler force200 fn req = 400) ∧
    (∀ raw, parseFirestoreDocumentEventData req = .ok raw →
      (∀ msg, ParseEvent raw (intakeEventTime req.now req.ceTime) = .error msg →
        propagateHandler force200 fn req = 400) ∧
      (∀ e, ParseEvent raw (intakeEventTime req.now req.ceTime) = .ok e →
        ((fn e).2 = true ∨ (fn e).1 = .error → propagateHandler force200 fn req = 500) ∧
        ((fn e).2 = false → (fn e).1 = .success →
          propagateHandler force200 fn req = if force200 then 200 else 202) ∧
        ((fn e).2 = false → (fn e).1 = .skipped →
          propagateHandler force200 fn req = if force200 then 200 else 204))) := by
  refine ⟨fun h => ?_, fun h => ?_, fun raw hraw => ⟨fun msg hmsg => ?_, fun e he => ?_⟩⟩
  · simp [propagateHandler, h]
  · simp [propagateHandler, h]
  · simp [propagateHandler, hraw, hmsg]
  · refine ⟨fun herr => ?_, fun hok hs => ?_, fun hok hs => ?_⟩
    · simp [propagateHandler, hraw, he, herr]
    · simp only [propagateHandler, hraw, he]
      rw [if_neg (by simp [hok, hs])]
      rw [hs]
    · simp only [propagateHandler, hraw, he]
      rw [if_neg (by simp [hok, hs])]
      rw [hs]

/-- C7 witness: a JSON create-event request with a succeeding propagator
is answered 202 (and the same request with forced-200 mode yields 200 by
the same theorem). -/
theorem c7_status_mapping_witness :
    propagateHandler false (fun _ => (.success, false))
      ⟨"application/json".toList, [], false, none,
        some ⟨some ⟨"projects/p/databases/d/documents/users/1".toList, 5, []⟩, none, none⟩,
        100, none⟩ = if false then 200 else 202 :=
  ((c7_status_mapping false (fun _ => (.success, false))
      ⟨"application/json".toList, [], false, none,
        some ⟨some ⟨"projects/p/databases/d/documents/users/1".toList, 5, []⟩, none, none⟩,
        100, none⟩).2.2
    ⟨some ⟨"projects/p/databases/d/documents/users/1".toList, 5, []⟩, none, none⟩ rfl).2
    ⟨.created, ⟨"p".toList, "d".toList, "users/1".toList⟩, 5,
      ⟨some ⟨"projects/p/databases/d/documents/users/1".toList, 5, []⟩, none, none⟩⟩
    (by rfl) |>.2.1 rfl rfl
